import Mathlib

/-!
Verification of the two client-side data-shaping pipelines of this repository:

* the fee time-series aggregator of the host-fees report section
  (`getHostFeesWithoutShare`, `getSeriesFromData`, `getActiveYearsOptions`), and
* the roster reconciler of the members settings section
  (`getMembersFromProps`, `getMembersCollectiveIds`, the admin count and the
  last-admin flag).

JavaScript numbers are idealised as exact arithmetic: minor-unit amounts as
`ℤ`, major-unit amounts as `ℚ`.  Fallible lookups (`lodash.get`, optional
chaining) are modelled with `Option`.
-/

set_option maxHeartbeats 1000000

/-- A timestamp as consumed by the fee pipeline.  The code reads a date only
through `new Date(d).getMonth()`, which for a schema-valid timestamp yields its
month index `0..11`; a date is carried as its raw ISO string together with that
month index. -/
structure FeeDate where
  iso : String
  month : Fin 12
  deriving DecidableEq

/-- A monetary amount: major-unit value (JS float, idealised as `ℚ`),
minor-unit integer value, and a currency code. -/
structure Amount where
  value : ℚ
  valueInCents : ℤ
  currency : String
  deriving DecidableEq

/-- One gross host-fee record (a node of `hostMetricsTimeSeries.hostFees`). -/
structure FeeNode where
  date : FeeDate
  amount : Amount
  deriving DecidableEq

/-- One fee-share settlement record (a node of
`hostMetricsTimeSeries.hostFeeShare`): a fee record additionally tagged with a
settlement status. -/
structure ShareNode extends FeeNode where
  settlementStatus : String
  deriving DecidableEq

/-- The `hostMetricsTimeSeries` payload; the `nodes` wrappers of the GraphQL
shape are collapsed into the lists themselves. -/
structure HostMetricsTimeSeries where
  hostFees : List FeeNode
  hostFeeShare : List ShareNode
  deriving DecidableEq

/-- One chart series: a display name and the 12-slot data array. -/
structure ChartSeries where
  name : String
  data : List ℚ
  deriving DecidableEq

/-- The per-month settlement totals dictionary built by the `reduce` in
`getHostFeesWithoutShare`; the JS object with missing keys defaulting to `0`
(`result[monthKey] || 0`) is modelled as a total function `Fin 12 → ℤ`. -/
def totalHostFeeSharePerMonthInCents (hostFeeShareNodes : List ShareNode) : Fin 12 → ℤ :=
  hostFeeShareNodes.foldl
    (fun result node m =>
      if m = node.date.month then result m + node.amount.valueInCents else result m)
    (fun _ => 0)

/-- `getHostFeesWithoutShare` from the host-fees section: nets each gross fee
record against the settlement total of its month.  The JS truthiness test
`if (totalHostFeeSharePerMonthInCents[monthKey])` is true exactly when the
month key holds a nonzero number (a missing key reads as `undefined`, falsy;
an explicit `0` is falsy as well), hence the `≠ 0` test.  `netFee` is the
body of the `hostFeeNodes.map` closure, factored out. -/
def netFee (hostFeeShareNodes : List ShareNode) (node : FeeNode) : FeeNode :=
  if totalHostFeeSharePerMonthInCents hostFeeShareNodes node.date.month ≠ 0 then
    { node with amount :=
        { node.amount with
            valueInCents :=
              node.amount.valueInCents -
                totalHostFeeSharePerMonthInCents hostFeeShareNodes node.date.month,
            value :=
              ((node.amount.valueInCents -
                  totalHostFeeSharePerMonthInCents hostFeeShareNodes node.date.month : ℤ) : ℚ) /
                100 } }
  else
    node

/-- `getHostFeesWithoutShare` from the host-fees section: nets each gross fee
record against the settlement total of its month. -/
def getHostFeesWithoutShare (hostFeeNodes : List FeeNode)
    (hostFeeShareNodes : List ShareNode) : List FeeNode :=
  hostFeeNodes.map (netFee hostFeeShareNodes)

/-- The inner `dataToSeries` of `getSeriesFromData`: a 12-slot array of zeros,
then `series[month] = amount.value` for each record in order (last write
wins). -/
def dataToSeries (data : List FeeNode) : List ℚ :=
  data.foldl (fun series node => series.set node.date.month.val node.amount.value)
    (List.replicate 12 0)

/-- The keys of a JS object in insertion order, for string-valued keys that are
inserted at first occurrence: each key once, in order of first appearance. -/
def firstSeenKeys : List String → List String
  | [] => []
  | k :: ks => k :: (firstSeenKeys ks).filter (fun s => decide (s ≠ k))

/-- Models `Object.entries(groupBy(nodes, 'settlementStatus'))`: lodash
`groupBy` builds one group per distinct status, keys in first-seen order, each
group listing its records in source order; `Object.entries` preserves that
insertion order for these non-index string keys. -/
def groupByStatus (nodes : List ShareNode) : List (String × List ShareNode) :=
  (firstSeenKeys (nodes.map (fun n => n.settlementStatus))).map
    (fun s => (s, nodes.filter (fun n => decide (n.settlementStatus = s))))

/-- `getSeriesFromData` from the host-fees section.  `statusLabel` stands for
the external label lookup `i18nTransactionSettlementStatus intl`; the lodash
`get(timeSeries, path, [])` defaults are carried by the `Option` input. -/
def getSeriesFromData (statusLabel : String → String)
    (timeSeries : Option HostMetricsTimeSeries) : List ChartSeries :=
  let hostFeeNodes := (timeSeries.map (fun ts => ts.hostFees)).getD []
  let hostFeeShareNodes := (timeSeries.map (fun ts => ts.hostFeeShare)).getD []
  { name := "Host profit",
    data := dataToSeries (getHostFeesWithoutShare hostFeeNodes hostFeeShareNodes) } ::
    (groupByStatus hostFeeShareNodes).map
      (fun p =>
        { name := "Host fee share (" ++ statusLabel p.1 ++ ")",
          data := dataToSeries (p.2.map (fun n => n.toFeeNode)) })

/-- One entry of the year dropdown (`{ value: year, label: year }`). -/
structure YearOption where
  value : Nat
  label : Nat
  deriving DecidableEq

/-- The host record as consumed by `getActiveYearsOptions`. -/
structure Host where
  createdAt : String
  deriving DecidableEq

/-- The characters of `createdAt.split('-')[0]`: everything before the first
dash (the whole string when no dash occurs). -/
def takeUntilDash : List Char → List Char
  | [] => []
  | c :: cs => if c = '-' then [] else c :: takeUntilDash cs

/-- Reads the maximal decimal-digit run at the front of the characters, the
way `parseInt` does once it has found a leading digit. -/
def parseDigits : List Char → Nat → Nat
  | [], acc => acc
  | c :: cs, acc => if c.isDigit then parseDigits cs (acc * 10 + (c.toNat - 48)) else acc

/-- Models `parseInt` on the field text: `none` stands for `NaN` (no leading
digit), otherwise the value of the leading digit run. -/
def parseIntOpt (cs : List Char) : Option Nat :=
  match cs with
  | [] => none
  | c :: _ => if c.isDigit then some (parseDigits cs 0) else none

/-- Models `parseInt(createdAt.split('-')[0])` on a schema-valid timestamp:
the leading digits before the first dash, read as a decimal number.  A `NaN`
result (modelled `none`) would make the caller throw; it is defaulted to 0
here and excluded by the theorems' well-formedness hypotheses. -/
def parseYearFromTimestamp (s : String) : Nat :=
  (parseIntOpt (takeUntilDash s.data)).getD 0

/-- `getActiveYearsOptions` from the host-fees section; `new Date().getFullYear()`
is passed in as `currentYear`. -/
def getActiveYearsOptions (host : Option Host) (currentYear : Nat) : List YearOption :=
  let firstYear :=
    match host with
    | some h => parseYearFromTimestamp h.createdAt
    | none => currentYear
  (List.range (currentYear - firstYear + 1)).map
    (fun year => { value := year + firstYear, label := year + firstYear })

/-- The account object referenced by a member or invitation record. -/
structure Account where
  id : String
  deriving DecidableEq

/-- A record flowing through the roster reconciler: a confirmed member, a
pending invitation (after `omit(i, ['id'])`), or the `{}` placeholder.  Only
the fields this component reads are carried; GraphQL ids are opaque non-empty
strings, so the JS truthiness tests on `id` coincide with presence
(`Option.isSome`).  The `member` field is the legacy field read by
`getMembersCollectiveIds`; no record produced by the GraphQL query carries
it. -/
structure MemberRecord where
  id : Option String := none
  role : Option String := none
  since : Option String := none
  description : Option String := none
  account : Option Account := none
  memberAccount : Option Account := none
  member : Option Account := none
  deriving DecidableEq

/-- The `roles.ADMIN` constant. -/
def ADMIN : String := "ADMIN"

/-- `EMPTY_MEMBERS = [{}]`: a single all-absent placeholder record. -/
def EMPTY_MEMBERS : List MemberRecord := [{}]

/-- `getMembersFromProps`: both lodash `get` calls default to `EMPTY_MEMBERS`
when the looked-up value is absent; invitations are id-stripped and appended
after the members; an empty concatenation is replaced by the placeholder. -/
def getMembersFromProps (membersNodes : Option (List MemberRecord))
    (memberInvitations : Option (List MemberRecord)) : List MemberRecord :=
  let pendingInvitations := memberInvitations.getD EMPTY_MEMBERS
  let pendingInvitationsMembersData := pendingInvitations.map (fun i => { i with id := none })
  let members := membersNodes.getD EMPTY_MEMBERS
  let all : List MemberRecord := members ++ pendingInvitationsMembersData
  if all.length = 0 then EMPTY_MEMBERS else all

/-- `getMembersCollectiveIds`: `members.map(member => member.member && member.member.id)`;
the guarded field access is `Option.map`. -/
def getMembersCollectiveIds (members : List MemberRecord) : List (Option String) :=
  members.map (fun member => member.member.map (fun a => a.id))

/-- The `nbAdmins` aggregate of `renderSection`:
`members.filter(m => m.role === roles.ADMIN && m.id).length`. -/
def nbAdmins (members : List MemberRecord) : Nat :=
  (members.filter (fun m => decide (m.role = some ADMIN) && m.id.isSome)).length

/-- The `isLastAdmin` flag of `renderMember`:
`nbAdmins === 1 && currentMember?.role === roles.ADMIN && currentMember?.id`. -/
def isLastAdmin (nbAdminsCount : Nat) (currentMember : Option MemberRecord) : Bool :=
  decide (nbAdminsCount = 1) &&
    decide (currentMember.bind (fun m => m.role) = some ADMIN) &&
    (currentMember.bind (fun m => m.id)).isSome

/-- Reference value for the round-trip claim: the total of the gross fee
records of month `m`, in major units. -/
def grossTotalMajor (hostFeeNodes : List FeeNode) (m : Fin 12) : ℚ :=
  ((hostFeeNodes.filter (fun r => decide (r.date.month = m))).map (fun r => r.amount.value)).sum

/-- The value a chart series displays for month slot `m` (slots out of range
read as 0; they never are, the data arrays have length 12). -/
def seriesValueAt (s : ChartSeries) (m : Fin 12) : ℚ :=
  (s.data.get? m.val).getD 0

/-- The stacked total of a series list at month slot `m`: the net-profit value
plus every settlement-status value. -/
def totalAt (series : List ChartSeries) (m : Fin 12) : ℚ :=
  (series.map (fun s => seriesValueAt s m)).sum

/-- The value `dataToSeries` leaves in slot `m`: the major-unit amount of the
last record of month `m`, or 0 when the month has none. -/
def lastValueAt (data : List FeeNode) (m : Fin 12) : ℚ :=
  (((data.filter (fun r => decide (r.date.month = m))).getLast?).map
    (fun r => r.amount.value)).getD 0

/-! ### Helper lemmas: roster reconciler -/

theorem nbAdmins_append (a b : List MemberRecord) : nbAdmins (a ++ b) = nbAdmins a + nbAdmins b := by
  simp [nbAdmins, List.filter_append]

theorem nbAdmins_stripped (l : List MemberRecord) :
    nbAdmins (l.map (fun i => { i with id := none })) = 0 := by
  induction l with
  | nil => rfl
  | cons x xs ih => simpa [nbAdmins, List.filter_cons] using ih

theorem nbAdmins_placeholder : nbAdmins EMPTY_MEMBERS = 0 := rfl

/-! ### Claim theorems: roster reconciler -/

/-- C2 (counterexample): with both input sequences absent the reconciler
substitutes the `[{}]` default for each side separately and produces a
two-entry roster, not the single placeholder the claim predicts. -/
theorem C2_counterexample :
    (getMembersFromProps none none).length = 2 ∧ (getMembersFromProps none none).length ≠ 1 := by
  constructor <;> decide

/-- C2 (amended): the roster length is `members.length + invitations.length`
where an absent sequence counts as length 1 (it is replaced by the one-element
placeholder list, not by the empty list), except when both sequences are
present and empty, in which case the roster is the single placeholder. -/
theorem C2_roster_length (membersNodes memberInvitations : Option (List MemberRecord)) :
    (getMembersFromProps membersNodes memberInvitations).length =
      if membersNodes = some [] ∧ memberInvitations = some [] then 1
      else (membersNodes.map List.length).getD 1 + (memberInvitations.map List.length).getD 1 := by
  rcases membersNodes with _ | ms <;> rcases memberInvitations with _ | is
  · simp [getMembersFromProps, EMPTY_MEMBERS]
  · rcases is with _ | ⟨i, is⟩ <;> simp [getMembersFromProps, EMPTY_MEMBERS] <;> omega
  · rcases ms with _ | ⟨m, ms⟩ <;> simp [getMembersFromProps, EMPTY_MEMBERS] <;> omega
  · rcases ms with _ | ⟨m, ms⟩ <;> rcases is with _ | ⟨i, is⟩ <;>
      simp [getMembersFromProps, EMPTY_MEMBERS] <;> omega

/-- C5 (counterexample): with both input sequences present and empty the
roster is the single placeholder entry, not the empty concatenation of the
member records and the id-stripped invitation records. -/
theorem C5_counterexample :
    getMembersFromProps (some []) (some []) ≠
      ([] : List MemberRecord) ++
        ([] : List MemberRecord).map (fun i => ({ i with id := none } : MemberRecord)) := by
  decide

/-- C5 (amended): for present input sequences, at least one non-empty, the
roster is exactly the member records in source order followed by the
id-stripped invitation records in source order; every invitation-derived
entry (the suffix after the members) carries no identifier. -/
theorem C5_roster_composition (ms is : List MemberRecord) (h : ms ≠ [] ∨ is ≠ []) :
    getMembersFromProps (some ms) (some is) = ms ++ is.map (fun i => { i with id := none }) ∧
    ∀ e ∈ (getMembersFromProps (some ms) (some is)).drop ms.length, e.id = none := by
  have hne : (ms ++ is.map (fun i => ({ i with id := none } : MemberRecord))).length ≠ 0 := by
    simp only [List.length_append, List.length_map]
    rcases h with h | h
    · have := List.length_pos.mpr h; omega
    · have := List.length_pos.mpr h; omega
  have hmain : getMembersFromProps (some ms) (some is) =
      ms ++ is.map (fun i => { i with id := none }) := by
    simp only [getMembersFromProps, Option.getD_some]
    rw [if_neg hne]
  refine ⟨hmain, ?_⟩
  rw [hmain, List.drop_left]
  intro e he
  rcases List.mem_map.mp he with ⟨i, _, rfl⟩
  rfl

/-- C5 (witness): a concrete member plus a concrete invitation. -/
theorem C5_roster_composition_witness :
    getMembersFromProps (some [{ id := some "member-1", role := some "ADMIN" }])
        (some [{ id := some "invitation-9", role := some "MEMBER" }]) =
      [{ id := some "member-1", role := some "ADMIN" }] ++
        [({ id := some "invitation-9", role := some "MEMBER" } : MemberRecord)].map
          (fun i => { i with id := none }) :=
  (C5_roster_composition _ _ (Or.inl (by decide))).1

/-- C6: the admin count of a reconciled roster counts exactly the entries with
role `ADMIN` and a present identifier, and it equals the admin count of the
member source sequence alone — the placeholder and the id-stripped invitation
entries never contribute. -/
theorem C6_admin_count (membersNodes memberInvitations : Option (List MemberRecord)) :
    nbAdmins (getMembersFromProps membersNodes memberInvitations) =
      ((getMembersFromProps membersNodes memberInvitations).filter
        (fun m => decide (m.role = some ADMIN) && m.id.isSome)).length ∧
    nbAdmins (getMembersFromProps membersNodes memberInvitations) =
      nbAdmins (membersNodes.getD []) := by
  refine ⟨rfl, ?_⟩
  rcases membersNodes with _ | ms <;> rcases memberInvitations with _ | is
  · decide
  · simp only [getMembersFromProps, Option.getD_some, Option.getD_none]
    rw [if_neg (by simp [EMPTY_MEMBERS])]
    rw [nbAdmins_append, nbAdmins_stripped, nbAdmins_placeholder]
    rfl
  · simp only [getMembersFromProps, Option.getD_some, Option.getD_none]
    rw [if_neg (by simp [EMPTY_MEMBERS])]
    rw [nbAdmins_append, nbAdmins_stripped]
    simp
  · simp only [getMembersFromProps, Option.getD_some]
    by_cases hz : (ms ++ is.map (fun i => ({ i with id := none } : MemberRecord))).length = 0
    · rw [if_pos hz, nbAdmins_placeholder]
      rcases List.append_eq_nil.mp (List.length_eq_zero.mp hz) with ⟨h1, _⟩
      rw [h1]
      rfl
    · rw [if_neg hz, nbAdmins_append, nbAdmins_stripped]
      simp

/-- C7: the last-admin flag, computed for a targeted roster entry, is true
exactly when the admin count is 1, the entry's role is `ADMIN`, and the entry
has a present identifier; in particular it is always false for an
invitation-derived entry, whose identifier was stripped. -/
theorem C7_last_admin_flag (roster : List MemberRecord) (m : MemberRecord) :
    isLastAdmin (nbAdmins roster) (some m) = true ↔
      (nbAdmins roster = 1 ∧ m.role = some ADMIN ∧ m.id.isSome = true) := by
  simp [isLastAdmin, and_assoc]

/-- C8 (code bug): the derived member-account identifier sequence reads the
`member` field, which no record of this component carries (members reference
their account through `account`, invitations through `memberAccount`), so
every derived identifier is absent even for an entry that does reference an
account — here one with account id `account-42`. -/
theorem C8_member_ids_bug :
    getMembersCollectiveIds
        (getMembersFromProps
          (some [{ id := some "member-1", role := some "ADMIN",
                   account := some { id := "account-42" } }])
          (some [])) = [none] ∧
    getMembersCollectiveIds
        (getMembersFromProps
          (some [{ id := some "member-1", role := some "ADMIN",
                   account := some { id := "account-42" } }])
          (some [])) ≠ [some "account-42"] := by
  constructor <;> decide

/-! ### Helper lemmas: fee aggregator -/

theorem totalShare_foldl (shares : List ShareNode) (acc : Fin 12 → ℤ) (m : Fin 12) :
    (shares.foldl
        (fun result node m =>
          if m = node.date.month then result m + node.amount.valueInCents else result m) acc) m
      = acc m +
        ((shares.filter (fun n => decide (n.date.month = m))).map
          (fun n => n.amount.valueInCents)).sum := by
  induction shares generalizing acc with
  | nil => simp
  | cons n ns ih =>
    rw [List.foldl_cons, ih]
    show (if m = n.date.month then acc m + n.amount.valueInCents else acc m)
        + ((ns.filter (fun x => decide (x.date.month = m))).map
            (fun x => x.amount.valueInCents)).sum
      = acc m + (((n :: ns).filter (fun x => decide (x.date.month = m))).map
            (fun x => x.amount.valueInCents)).sum
    by_cases hm : m = n.date.month
    · rw [if_pos hm, List.filter_cons_of_pos (by simpa using hm.symm), List.map_cons,
        List.sum_cons]
      ring
    · rw [if_neg hm, List.filter_cons_of_neg (by simpa using fun e : n.date.month = m => hm e.symm)]

theorem totalShare_eq_sum (shares : List ShareNode) (m : Fin 12) :
    totalHostFeeSharePerMonthInCents shares m =
      ((shares.filter (fun n => decide (n.date.month = m))).map
        (fun n => n.amount.valueInCents)).sum := by
  have h := totalShare_foldl shares (fun _ => 0) m
  simpa [totalHostFeeSharePerMonthInCents] using h

theorem netFee_date (shares : List ShareNode) (node : FeeNode) :
    (netFee shares node).date = node.date := by
  unfold netFee
  split <;> rfl

theorem netFee_currency (shares : List ShareNode) (node : FeeNode) :
    (netFee shares node).amount.currency = node.amount.currency := by
  unfold netFee
  split <;> rfl

/-! ### Claim theorems: fee aggregator, netting and frame -/

/-- C3: each gross fee record whose month has settlement total `t` is netted
to `valueInCents - t` with major value `(valueInCents - t) / 100` when
`t ≠ 0`, and passed through unchanged when `t = 0` (in particular when no
settlement record falls in its month). -/
theorem C3_netting (fees : List FeeNode) (shares : List ShareNode) (k : Nat) (r : FeeNode) (t : ℤ)
    (hr : fees.get? k = some r)
    (ht : t = ((shares.filter (fun n => decide (n.date.month = r.date.month))).map
        (fun n => n.amount.valueInCents)).sum) :
    (getHostFeesWithoutShare fees shares).get? k =
      some (if t = 0 then r
        else { r with amount := { r.amount with
                 valueInCents := r.amount.valueInCents - t,
                 value := ((r.amount.valueInCents - t : ℤ) : ℚ) / 100 } }) := by
  have htot : totalHostFeeSharePerMonthInCents shares r.date.month = t := by
    rw [ht, totalShare_eq_sum]
  rw [getHostFeesWithoutShare, List.get?_map, hr, Option.map_some']
  congr 1
  unfold netFee
  rw [htot]
  by_cases hts : t = 0
  · simp [hts]
  · rw [if_pos hts, if_neg hts]

/-- C3 (witness): one gross fee of 1000 cents in January netted against a
single January settlement of 300 cents. -/
theorem C3_netting_witness :
    (getHostFeesWithoutShare
        [{ date := { iso := "2021-01-15T00:00:00Z", month := 0 },
           amount := { value := 10, valueInCents := 1000, currency := "USD" } }]
        [{ date := { iso := "2021-01-05T00:00:00Z", month := 0 },
           amount := { value := 3, valueInCents := 300, currency := "USD" },
           settlementStatus := "INVOICE" }]).get? 0 =
      some { date := { iso := "2021-01-15T00:00:00Z", month := 0 },
             amount := { value := 7, valueInCents := 700, currency := "USD" } } := by
  have h := C3_netting
    [{ date := { iso := "2021-01-15T00:00:00Z", month := 0 },
       amount := { value := 10, valueInCents := 1000, currency := "USD" } }]
    [{ date := { iso := "2021-01-05T00:00:00Z", month := 0 },
       amount := { value := 3, valueInCents := 300, currency := "USD" },
       settlementStatus := "INVOICE" }]
    0
    { date := { iso := "2021-01-15T00:00:00Z", month := 0 },
      amount := { value := 10, valueInCents := 1000, currency := "USD" } }
    300 rfl (by decide)
  rw [h]
  norm_num

/-- C10: netting is one-to-one and order-preserving on the gross fee stream,
and touches nothing but the two amount value fields: the date and the
currency of every output record match the input record at the same
position. -/
theorem C10_frame (fees : List FeeNode) (shares : List ShareNode) :
    (getHostFeesWithoutShare fees shares).length = fees.length ∧
    ∀ k : Nat,
      ((getHostFeesWithoutShare fees shares).get? k).map (fun n => n.date) =
        (fees.get? k).map (fun n => n.date) ∧
      ((getHostFeesWithoutShare fees shares).get? k).map (fun n => n.amount.currency) =
        (fees.get? k).map (fun n => n.amount.currency) := by
  refine ⟨by simp [getHostFeesWithoutShare], ?_⟩
  intro k
  constructor <;>
    · rw [getHostFeesWithoutShare, List.get?_map]
      cases fees.get? k <;> simp [netFee_date, netFee_currency]

/-- C9: with a loaded host the year options run consecutively from the year
parsed out of the host's creation timestamp up to the current year inclusive,
each option labelling its own value; with no host they collapse to the
current year alone. -/
theorem C9_years_options (h : Host) (currentYear firstYear : Nat)
    (hparse : parseYearFromTimestamp h.createdAt = firstYear)
    (hle : firstYear ≤ currentYear) :
    ((getActiveYearsOptions (some h) currentYear).length = currentYear - firstYear + 1 ∧
      ∀ k : Nat, k < currentYear - firstYear + 1 →
        (getActiveYearsOptions (some h) currentYear).get? k =
          some { value := firstYear + k, label := firstYear + k }) ∧
    getActiveYearsOptions none currentYear = [{ value := currentYear, label := currentYear }] := by
  refine ⟨⟨?_, ?_⟩, ?_⟩
  · simp [getActiveYearsOptions, hparse]
  · intro k hk
    simp only [getActiveYearsOptions, hparse]
    rw [List.get?_map, List.get?_range hk]
    simp [Nat.add_comm]
  · simp only [getActiveYearsOptions, Nat.sub_self]
    rw [show List.range (0 + 1) = [0] from rfl]
    simp

/-- C9 (witness): a host created in 2018, current year 2021. -/
theorem C9_years_options_witness :
    (getActiveYearsOptions (some { createdAt := "2018-05-01T00:00:00Z" }) 2021).get? 3 =
      some { value := 2018 + 3, label := 2018 + 3 } ∧
    getActiveYearsOptions none 2021 = [{ value := 2021, label := 2021 }] :=
  ⟨(C9_years_options { createdAt := "2018-05-01T00:00:00Z" } 2021 2018 rfl
      (by norm_num)).1.2 3 (by norm_num),
   (C9_years_options { createdAt := "2018-05-01T00:00:00Z" } 2021 2018 rfl
      (by norm_num)).2⟩

/-! ### Helper lemmas: series construction -/

theorem dataToSeries_foldl_length (data : List FeeNode) (init : List ℚ) :
    (data.foldl (fun series node => series.set node.date.month.val node.amount.value)
      init).length = init.length := by
  induction data generalizing init with
  | nil => rfl
  | cons n ns ih => rw [List.foldl_cons, ih, List.length_set]

theorem dataToSeries_length (data : List FeeNode) : (dataToSeries data).length = 12 := by
  rw [dataToSeries, dataToSeries_foldl_length, List.length_replicate]

theorem dataToSeries_concat (data : List FeeNode) (r : FeeNode) :
    dataToSeries (data ++ [r]) = (dataToSeries data).set r.date.month.val r.amount.value := by
  simp only [dataToSeries, List.foldl_append, List.foldl_cons, List.foldl_nil]

theorem lastValueAt_concat (data : List FeeNode) (r : FeeNode) (m : Fin 12) :
    lastValueAt (data ++ [r]) m
      = if r.date.month = m then r.amount.value else lastValueAt data m := by
  by_cases h : r.date.month = m
  · rw [if_pos h]
    simp only [lastValueAt, List.filter_append]
    rw [List.filter_cons_of_pos (by simpa using h), List.filter_nil, List.getLast?_concat]
    rfl
  · rw [if_neg h]
    simp only [lastValueAt, List.filter_append]
    rw [List.filter_cons_of_neg (by simpa using h), List.filter_nil, List.append_nil]

theorem dataToSeries_get (data : List FeeNode) (m : Fin 12) :
    (dataToSeries data).get? m.val = some (lastValueAt data m) := by
  induction data using List.reverseRecOn with
  | nil =>
    simp only [dataToSeries, List.foldl_nil, lastValueAt, List.filter_nil]
    rw [List.get?_eq_getElem?, List.getElem?_replicate_of_lt m.isLt]
    rfl
  | append_singleton ds r ih =>
    rw [dataToSeries_concat, lastValueAt_concat]
    by_cases h : r.date.month = m
    · rw [if_pos h, show r.date.month.val = m.val from congrArg Fin.val h]
      exact List.get?_set_eq_of_lt _ (by rw [dataToSeries_length]; exact m.isLt)
    · rw [if_neg h, List.get?_set_ne _ _ (fun e => h (Fin.val_injective e))]
      exact ih

theorem seriesValueAt_mk (nm : String) (data : List FeeNode) (m : Fin 12) :
    seriesValueAt { name := nm, data := dataToSeries data } m = lastValueAt data m := by
  show ((dataToSeries data).get? m.val).getD 0 = lastValueAt data m
  rw [dataToSeries_get]
  rfl

theorem lastValueAt_eq_zero (data : List FeeNode) (m : Fin 12)
    (h : ∀ r ∈ data, r.date.month ≠ m) : lastValueAt data m = 0 := by
  have hfil : data.filter (fun r => decide (r.date.month = m)) = [] :=
    List.filter_eq_nil_iff.mpr (fun a ha hpa => h a ha (by simpa using hpa))
  rw [lastValueAt, hfil]
  rfl

theorem lastValueAt_eq_sum (data : List FeeNode) (m : Fin 12)
    (h : (data.filter (fun r => decide (r.date.month = m))).length ≤ 1) :
    lastValueAt data m =
      ((data.filter (fun r => decide (r.date.month = m))).map
        (fun r => r.amount.value)).sum := by
  rcases hf : data.filter (fun r => decide (r.date.month = m)) with _ | ⟨x, xs⟩
  · rw [lastValueAt, hf]
    rfl
  · rcases xs with _ | ⟨y, ys⟩
    · rw [lastValueAt, hf]
      simp
    · exfalso
      rw [hf] at h
      simp only [List.length_cons] at h
      omega

theorem getHostFeesWithoutShare_filter (fees : List FeeNode) (shares : List ShareNode)
    (m : Fin 12) :
    (getHostFeesWithoutShare fees shares).filter (fun r => decide (r.date.month = m)) =
      (fees.filter (fun r => decide (r.date.month = m))).map (netFee shares) := by
  rw [getHostFeesWithoutShare, List.filter_map]
  congr 1
  apply List.filter_congr
  intro x _
  simp [Function.comp, netFee_date]

theorem toFeeNode_filter (g : List ShareNode) (m : Fin 12) :
    (g.map (fun n => n.toFeeNode)).filter (fun r => decide (r.date.month = m)) =
      (g.filter (fun n => decide (n.date.month = m))).map (fun n => n.toFeeNode) := by
  rw [List.filter_map]
  rfl

/-! ### Helper lemmas: grouping and summation -/

theorem sum_map_add_q {α : Type} (l : List α) (f g : α → ℚ) :
    (l.map (fun x => f x + g x)).sum = (l.map f).sum + (l.map g).sum := by
  induction l with
  | nil => simp
  | cons a as ih =>
    simp only [List.map_cons, List.sum_cons, ih]
    ring

theorem sum_ite_key (keys : List String) (a : String) (c : ℚ)
    (hnd : keys.Nodup) (ha : a ∈ keys) :
    (keys.map (fun s => if s = a then c else 0)).sum = c := by
  induction keys with
  | nil => cases ha
  | cons k ks ih =>
    rw [List.map_cons, List.sum_cons]
    by_cases hka : k = a
    · subst hka
      rw [if_pos rfl]
      have hz : (ks.map (fun s => if s = k then c else (0 : ℚ))).sum = 0 := by
        apply List.sum_eq_zero
        intro x hx
        rcases List.mem_map.mp hx with ⟨s, hs, rfl⟩
        have hne : s ≠ k := by
          rintro rfl
          exact (List.nodup_cons.mp hnd).1 hs
        exact if_neg hne
      rw [hz, add_zero]
    · have hmem : a ∈ ks := by
        rcases List.mem_cons.mp ha with h | h
        · exact absurd h.symm hka
        · exact h
      rw [if_neg hka, ih (List.nodup_cons.mp hnd).2 hmem, zero_add]

theorem sum_over_groups (keys : List String) (l : List ShareNode) (f : ShareNode → ℚ)
    (hnd : keys.Nodup) (hcov : ∀ r ∈ l, r.settlementStatus ∈ keys) :
    (keys.map (fun s =>
      ((l.filter (fun r => decide (r.settlementStatus = s))).map f).sum)).sum
      = (l.map f).sum := by
  induction l with
  | nil => simp
  | cons r rs ih =>
    have hpt : ∀ s ∈ keys,
        (((r :: rs).filter (fun x => decide (x.settlementStatus = s))).map f).sum
          = (if s = r.settlementStatus then f r else 0)
            + ((rs.filter (fun x => decide (x.settlementStatus = s))).map f).sum := by
      intro s _
      by_cases h : r.settlementStatus = s
      · rw [List.filter_cons_of_pos (by simpa using h), List.map_cons, List.sum_cons,
          if_pos h.symm]
      · rw [List.filter_cons_of_neg (by simpa using h), if_neg (fun e => h e.symm), zero_add]
    rw [List.map_congr_left hpt, sum_map_add_q,
      sum_ite_key keys r.settlementStatus (f r) hnd (hcov r (List.mem_cons_self r rs)),
      ih (fun x hx => hcov x (List.mem_cons_of_mem r hx)), List.map_cons, List.sum_cons]

theorem firstSeenKeys_nodup (l : List String) : (firstSeenKeys l).Nodup := by
  induction l with
  | nil => exact List.nodup_nil
  | cons k ks ih =>
    simp only [firstSeenKeys]
    refine List.nodup_cons.mpr ⟨?_, ih.filter _⟩
    intro hmem
    have h := (List.mem_filter.mp hmem).2
    simp at h

theorem mem_firstSeenKeys (l : List String) (s : String) :
    s ∈ firstSeenKeys l ↔ s ∈ l := by
  induction l with
  | nil => simp [firstSeenKeys]
  | cons k ks ih =>
    simp only [firstSeenKeys, List.mem_cons]
    constructor
    · rintro (rfl | h)
      · exact Or.inl rfl
      · exact Or.inr (ih.mp (List.mem_filter.mp h).1)
    · rintro (rfl | h)
      · exact Or.inl rfl
      · by_cases hk : s = k
        · exact Or.inl hk
        · exact Or.inr (List.mem_filter.mpr ⟨ih.mpr h, by simpa using hk⟩)

theorem filter_status_month_comm (shares : List ShareNode) (s : String) (m : Fin 12) :
    (shares.filter (fun n => decide (n.settlementStatus = s))).filter
        (fun r => decide (r.date.month = m))
      = (shares.filter (fun r => decide (r.date.month = m))).filter
          (fun r => decide (r.settlementStatus = s)) := by
  rw [List.filter_filter, List.filter_filter]
  apply List.filter_congr
  intro x _
  exact Bool.and_comm _ _

theorem group_series_value (shares : List ShareNode) (s : String) (m : Fin 12)
    (hb : ((shares.filter (fun r => decide (r.date.month = m))).filter
        (fun r => decide (r.settlementStatus = s))).length ≤ 1) :
    lastValueAt ((shares.filter (fun n => decide (n.settlementStatus = s))).map
        (fun n => n.toFeeNode)) m
      = (((shares.filter (fun r => decide (r.date.month = m))).filter
          (fun r => decide (r.settlementStatus = s))).map (fun r => r.amount.value)).sum := by
  have hcomm := filter_status_month_comm shares s m
  have hlen : (((shares.filter (fun n => decide (n.settlementStatus = s))).map
      (fun n => n.toFeeNode)).filter (fun r => decide (r.date.month = m))).length ≤ 1 := by
    rw [toFeeNode_filter, List.length_map, hcomm]
    exact hb
  rw [lastValueAt_eq_sum _ _ hlen, toFeeNode_filter, List.map_map, hcomm]
  exact congrArg List.sum (List.map_congr_left (fun x _ => rfl))

theorem status_sum (shares : List ShareNode) (m : Fin 12)
    (hb : ∀ s : String,
      ((shares.filter (fun r => decide (r.date.month = m))).filter
        (fun r => decide (r.settlementStatus = s))).length ≤ 1) :
    ((groupByStatus shares).map
        (fun p => lastValueAt (p.2.map (fun n => n.toFeeNode)) m)).sum
      = ((shares.filter (fun r => decide (r.date.month = m))).map
          (fun r => r.amount.value)).sum := by
  rw [groupByStatus, List.map_map]
  refine Eq.trans (congrArg List.sum (List.map_congr_left (fun s _ => ?_)))
    (sum_over_groups _ _ _ (firstSeenKeys_nodup _)
      (fun r hr => (mem_firstSeenKeys _ _).mpr
        (List.mem_map.mpr ⟨r, List.mem_of_mem_filter hr, rfl⟩)))
  exact group_series_value shares s m (hb s)

theorem net_series_value (fees : List FeeNode) (shares : List ShareNode) (m : Fin 12)
    (hg : (fees.filter (fun r => decide (r.date.month = m))).length ≤ 1) :
    lastValueAt (getHostFeesWithoutShare fees shares) m
      = ((fees.filter (fun r => decide (r.date.month = m))).map
          (fun r => (netFee shares r).amount.value)).sum := by
  have hlen : ((getHostFeesWithoutShare fees shares).filter
      (fun r => decide (r.date.month = m))).length ≤ 1 := by
    rw [getHostFeesWithoutShare_filter, List.length_map]
    exact hg
  rw [lastValueAt_eq_sum _ _ hlen, getHostFeesWithoutShare_filter, List.map_map]
  exact congrArg List.sum (List.map_congr_left (fun x _ => rfl))

theorem sum_value_eq_sum_cents (l : List ShareNode)
    (h : ∀ r ∈ l, r.amount.value = (r.amount.valueInCents : ℚ) / 100) :
    (l.map (fun r => r.amount.value)).sum
      = (((l.map (fun r => r.amount.valueInCents)).sum : ℤ) : ℚ) / 100 := by
  induction l with
  | nil => simp
  | cons r rs ih =>
    simp only [List.map_cons, List.sum_cons]
    rw [h r (List.mem_cons_self r rs), ih (fun x hx => h x (List.mem_cons_of_mem r hx))]
    push_cast
    ring

/-! ### Claim theorems: series shape and round trip -/

/-- C4: every data array produced by the aggregator — the net-profit series
and each settlement-status series — has length exactly 12, and a month slot to
which no input record (gross fee or settlement) maps holds the value 0. -/
theorem C4_series_shape (statusLabel : String → String)
    (timeSeries : Option HostMetricsTimeSeries) (s : ChartSeries)
    (hs : s ∈ getSeriesFromData statusLabel timeSeries) :
    s.data.length = 12 ∧
    ∀ m : Fin 12,
      (∀ r ∈ (timeSeries.map (fun ts => ts.hostFees)).getD [], r.date.month ≠ m) →
      (∀ r ∈ (timeSeries.map (fun ts => ts.hostFeeShare)).getD [], r.date.month ≠ m) →
      s.data.get? m.val = some 0 := by
  simp only [getSeriesFromData, List.mem_cons] at hs
  rcases hs with rfl | hs
  · dsimp only
    refine ⟨dataToSeries_length _, ?_⟩
    intro m hf _
    rw [dataToSeries_get]
    refine congrArg some (lastValueAt_eq_zero _ _ ?_)
    intro r hr
    rw [getHostFeesWithoutShare] at hr
    rcases List.mem_map.mp hr with ⟨x, hx, rfl⟩
    rw [netFee_date]
    exact hf x hx
  · rcases List.mem_map.mp hs with ⟨p, hp, rfl⟩
    dsimp only
    refine ⟨dataToSeries_length _, ?_⟩
    intro m _ hsh
    rw [dataToSeries_get]
    refine congrArg some (lastValueAt_eq_zero _ _ ?_)
    intro r hr
    rcases List.mem_map.mp hr with ⟨x, hx, rfl⟩
    rw [groupByStatus] at hp
    rcases List.mem_map.mp hp with ⟨key, _, rfl⟩
    exact hsh x (List.mem_of_mem_filter hx)

/-- C4 (witness): one January gross fee, no settlements; the net-profit series
has 12 slots and slot 1 (February) holds 0. -/
theorem C4_series_shape_witness :
    ({ name := "Host profit",
       data := dataToSeries (getHostFeesWithoutShare
         [{ date := { iso := "2021-01-15T00:00:00Z", month := 0 },
            amount := { value := 10, valueInCents := 1000, currency := "USD" } }] []) } :
      ChartSeries).data.length = 12 ∧
    ({ name := "Host profit",
       data := dataToSeries (getHostFeesWithoutShare
         [{ date := { iso := "2021-01-15T00:00:00Z", month := 0 },
            amount := { value := 10, valueInCents := 1000, currency := "USD" } }] []) } :
      ChartSeries).data.get? (1 : Fin 12).val = some 0 := by
  have h := C4_series_shape (fun s => s)
    (some (HostMetricsTimeSeries.mk
      [{ date := { iso := "2021-01-15T00:00:00Z", month := 0 },
         amount := { value := 10, valueInCents := 1000, currency := "USD" } }]
      []))
    { name := "Host profit",
      data := dataToSeries (getHostFeesWithoutShare
        [{ date := { iso := "2021-01-15T00:00:00Z", month := 0 },
           amount := { value := 10, valueInCents := 1000, currency := "USD" } }] []) }
    (List.mem_cons_self _ _)
  exact ⟨h.1, h.2 1 (by decide) (by decide)⟩

/-- C1 (counterexample): the round trip fails as stated.  With no gross fee
records at all (so that no month has more than one gross fee record, as the
claim requires) and a single January settlement of 3, the stacked series total
at January is 3 while the gross fee total is 0: the settlement-status series
still display months that the net-profit stream never compensates. -/
theorem C1_counterexample :
    ((List.finRange 12).all (fun m =>
      decide ((([] : List FeeNode).filter (fun r => decide (r.date.month = m))).length ≤ 1)))
      = true ∧
    totalAt (getSeriesFromData (fun s => s)
        (some { hostFees := [],
                hostFeeShare := [{ date := { iso := "2021-01-05T00:00:00Z", month := 0 },
                                   amount := { value := 3, valueInCents := 300,
                                               currency := "USD" },
                                   settlementStatus := "INVOICE" }] })) (0 : Fin 12)
      ≠ grossTotalMajor [] (0 : Fin 12) := by
  refine ⟨by decide, ?_⟩
  have h1 : totalAt (getSeriesFromData (fun s => s)
      (some { hostFees := [],
              hostFeeShare := [{ date := { iso := "2021-01-05T00:00:00Z", month := 0 },
                                 amount := { value := 3, valueInCents := 300,
                                             currency := "USD" },
                                 settlementStatus := "INVOICE" }] })) (0 : Fin 12) = 3 := by
    simp [totalAt, getSeriesFromData, groupByStatus, firstSeenKeys, getHostFeesWithoutShare,
      dataToSeries, seriesValueAt, List.replicate]
  have h2 : grossTotalMajor [] (0 : Fin 12) = 0 := by
    simp [grossTotalMajor]
  rw [h1, h2]
  norm_num

/-- C1 (amended): summing the net-profit series and every settlement-status
series per month reproduces the gross fee total of that month, for inputs
where no month has more than one gross fee record, no (month, status) pair
has more than one settlement record, every month carrying a settlement record
also carries a gross fee record, and every record's major-unit value is its
minor-unit value divided by 100. -/
theorem C1_round_trip (statusLabel : String → String) (fees : List FeeNode)
    (shares : List ShareNode)
    (hgross : ∀ m : Fin 12, (fees.filter (fun r => decide (r.date.month = m))).length ≤ 1)
    (hshare : ∀ (m : Fin 12) (s : String),
      ((shares.filter (fun r => decide (r.date.month = m))).filter
        (fun r => decide (r.settlementStatus = s))).length ≤ 1)
    (hcover : ∀ r ∈ shares, ∃ g ∈ fees, g.date.month = r.date.month)
    (hfees : ∀ r ∈ fees, r.amount.value = (r.amount.valueInCents : ℚ) / 100)
    (hshares : ∀ r ∈ shares, r.amount.value = (r.amount.valueInCents : ℚ) / 100)
    (m : Fin 12) :
    totalAt (getSeriesFromData statusLabel
        (some { hostFees := fees, hostFeeShare := shares })) m
      = grossTotalMajor fees m := by
  show seriesValueAt
      { name := "Host profit",
        data := dataToSeries (getHostFeesWithoutShare fees shares) } m
      + (((groupByStatus shares).map (fun p =>
          ({ name := "Host fee share (" ++ statusLabel p.1 ++ ")",
             data := dataToSeries (p.2.map (fun n => n.toFeeNode)) } : ChartSeries))).map
          (fun s => seriesValueAt s m)).sum
      = grossTotalMajor fees m
  rw [seriesValueAt_mk, net_series_value fees shares m (hgross m)]
  have hstat : (((groupByStatus shares).map (fun p =>
      ({ name := "Host fee share (" ++ statusLabel p.1 ++ ")",
         data := dataToSeries (p.2.map (fun n => n.toFeeNode)) } : ChartSeries))).map
      (fun s => seriesValueAt s m)).sum
      = ((shares.filter (fun r => decide (r.date.month = m))).map
          (fun r => r.amount.value)).sum := by
    rw [List.map_map]
    refine Eq.trans (congrArg List.sum (List.map_congr_left (fun p _ => ?_)))
      (status_sum shares m (fun s => hshare m s))
    exact seriesValueAt_mk _ _ m
  rw [hstat, sum_value_eq_sum_cents _ (fun r hr => hshares r (List.mem_of_mem_filter hr))]
  simp only [grossTotalMajor]
  rcases hG : fees.filter (fun r => decide (r.date.month = m)) with _ | ⟨g, gs⟩
  · have hSm : shares.filter (fun r => decide (r.date.month = m)) = [] := by
      rw [List.filter_eq_nil_iff]
      intro r hr hpr
      have hrm : r.date.month = m := by simpa using hpr
      rcases hcover r hr with ⟨gg, hgg, hge⟩
      have hmem : gg ∈ fees.filter (fun x => decide (x.date.month = m)) :=
        List.mem_filter.mpr ⟨hgg, by simp [hge.trans hrm]⟩
      rw [hG] at hmem
      exact absurd hmem (List.not_mem_nil gg)
    rw [hG, hSm]
    simp
  · have hgs : gs = [] := by
      have hl := hgross m
      rw [hG, List.length_cons] at hl
      have hlz : gs.length = 0 := by omega
      exact List.length_eq_zero.mp hlz
    subst hgs
    have hgmem : g ∈ fees.filter (fun r => decide (r.date.month = m)) := by
      rw [hG]
      exact List.mem_cons_self _ _
    have hgm : g.date.month = m := by simpa using (List.mem_filter.mp hgmem).2
    have hgf : g ∈ fees := List.mem_of_mem_filter hgmem
    rw [hG]
    simp only [List.map_cons, List.map_nil, List.sum_cons, List.sum_nil]
    simp only [netFee]
    rw [hgm, totalShare_eq_sum]
    by_cases hT : ((shares.filter (fun n => decide (n.date.month = m))).map
        (fun n => n.amount.valueInCents)).sum = 0
    · rw [if_neg (fun hne => hne hT), hT]
      rw [hfees g hgf]
      norm_num
    · rw [if_pos hT]
      dsimp only
      rw [hfees g hgf]
      push_cast
      ring

/-- C1 (witness): one January gross fee of 1000 cents (value 10) against one
January settlement of 300 cents (value 3); the stacked series total at
January equals the gross fee total. -/
theorem C1_round_trip_witness :
    totalAt (getSeriesFromData (fun s => s)
        (some { hostFees := [{ date := { iso := "2021-01-15T00:00:00Z", month := 0 },
                               amount := { value := 10, valueInCents := 1000,
                                           currency := "USD" } }],
                hostFeeShare := [{ date := { iso := "2021-01-05T00:00:00Z", month := 0 },
                                   amount := { value := 3, valueInCents := 300,
                                               currency := "USD" },
                                   settlementStatus := "INVOICE" }] })) (0 : Fin 12)
      = grossTotalMajor [{ date := { iso := "2021-01-15T00:00:00Z", month := 0 },
                           amount := { value := 10, valueInCents := 1000,
                                       currency := "USD" } }] (0 : Fin 12) :=
  C1_round_trip (fun s => s) _ _
    (by decide)
    (by
      intro m s
      exact le_trans (List.length_filter_le _ _) (List.length_filter_le _ _))
    (by decide)
    (by
      intro r hr
      have h := List.mem_singleton.mp hr
      subst h
      norm_num)
    (by
      intro r hr
      have h := List.mem_singleton.mp hr
      subst h
      norm_num)
    0
